import Mathlib

/-!
Shallow embedding of the game-state logic of `src/doggo-games/src/DoggoGames.tsx`:
the memory-deck builder and flip state machine, the jigsaw tile engine
(makeTiles / shuffle / isSolved / onSwap / startNew), and the campaign
persistence helpers (hashPhotos / loadCampaign / handleNextLevel /
handleSelectImg and the level-completion effect).

JavaScript `Math.random()`-driven choices are modelled by an explicit
`rand : Nat → Nat` argument; the index drawn at loop counter `i` is
`rand i % (i + 1)`, which ranges over exactly the values
`Math.floor(Math.random() * (i + 1))` can take.  Out-of-range array reads
(which the UI never performs) are modelled totally with `getD` / `get?`;
theorems carry in-range hypotheses where the source relies on validity.
-/

/-- `[cards[i], cards[j]] = [cards[j], cards[i]]` — the in-place swap used by
both Fisher–Yates loops in the source.  Out-of-range indices leave the list
unchanged (the loops only ever produce in-range indices). -/
def listSwap {α : Type} (l : List α) (i j : Nat) : List α :=
  match l.get? i, l.get? j with
  | some x, some y => (l.set i y).set j x
  | _, _ => l

/-- The Fisher–Yates loop `for (let i = n-1; i > 0; i--) { j = ...; swap }`,
counting the loop variable down from `i`. -/
def fyLoop {α : Type} (rand : Nat → Nat) : Nat → List α → List α
  | 0, l => l
  | i + 1, l => fyLoop rand i (listSwap l (i + 1) (rand (i + 1) % (i + 2)))

/-- `shuffle<T>(arr)` from the source (also the deck shuffle inlined in
`createMemoryDeck`): copy the array and run Fisher–Yates from `length - 1`
down to `1`. -/
def shuffle {α : Type} (rand : Nat → Nat) (arr : List α) : List α :=
  fyLoop rand (arr.length - 1) arr

-- -------------------- MEMORY GAME --------------------

/-- `type Card` from the source. -/
structure Card where
  id : Nat
  img : String
  index : Int
  flipped : Bool
  matched : Bool
deriving DecidableEq

/-- Stand-in for JavaScript `undefined` on out-of-range deck reads; theorems
always carry in-range hypotheses so its value is never load-bearing. -/
def defaultCard : Card := ⟨0, "", -1, false, false⟩

/-- `createMemoryDeck(allPhotos, pairs)`: draw `pairs` images cyclically,
duplicate each into two cards sharing the pair index as `id`, Fisher–Yates
shuffle, then assign sequential `index` fields. -/
def createMemoryDeck (rand : Nat → Nat) (allPhotos : List String) (pairs : Nat) :
    List Card :=
  let unique : List String :=
    (List.range pairs).map (fun i => allPhotos.getD (i % allPhotos.length) "")
  let cards : List Card :=
    unique.enum.flatMap (fun p =>
      [ { id := p.1, img := p.2, index := -1, flipped := false, matched := false },
        { id := p.1, img := p.2, index := -1, flipped := false, matched := false } ])
  let shuffled := shuffle rand cards
  shuffled.enum.map (fun p => { p.2 with index := (p.1 : Int) })

/-- The two resolution callbacks `onCardClick` schedules with `addTimer`:
after ~200ms mark a matched pair, after ~600ms flip a mismatched pair back. -/
inductive Pending where
  | resolveMatch (a b : Nat)
  | resolveMismatch (a b : Nat)
deriving DecidableEq

/-- The `MemoryGame` component state touched by `onCardClick` and the timer
callbacks: `deck`, `flipped`, `moves`, `hasStarted`, `finished`,
`locked` / `lockedRef`, and the pending timer callback (at most one is ever
outstanding because `locked` blocks further flips until it fires). -/
structure MemState where
  deck : List Card
  flipped : List Nat
  moves : Nat
  hasStarted : Bool
  finished : Bool
  locked : Bool
  pending : Option Pending
deriving DecidableEq

/-- `onCardClick(idx)` from the source: guard clauses, flip the card, and on a
second flip record a move, lock the board and schedule the match or mismatch
resolution for the pair `(a, b) = newFlipped`. -/
def onCardClick (s : MemState) (idx : Nat) : MemState :=
  if s.finished || s.locked then s
  else if 2 ≤ s.flipped.length then s
  else
    let card := s.deck.getD idx defaultCard
    if card.matched || card.flipped then s
    else
      let newDeck := s.deck.set idx { card with flipped := true }
      let newFlipped := s.flipped ++ [idx]
      let s1 := { s with deck := newDeck, flipped := newFlipped, hasStarted := true }
      if newFlipped.length == 2 then
        let a := newFlipped.getD 0 0
        let b := newFlipped.getD 1 0
        let ca := newDeck.getD a defaultCard
        let cb := newDeck.getD b defaultCard
        { s1 with
          moves := s.moves + 1
          locked := true
          pending := some (if ca.id == cb.id
            then Pending.resolveMatch a b
            else Pending.resolveMismatch a b) }
      else s1

/-- `dd[i] = { ...dd[i], matched: true }` on a copy of the deck (no-op when `i`
is out of range, which the source never does). -/
def setMatchedAt (d : List Card) (i : Nat) : List Card :=
  match d.get? i with
  | some c => d.set i { c with matched := true }
  | none => d

/-- `dd[i] = { ...dd[i], flipped: false }` on a copy of the deck. -/
def setUnflippedAt (d : List Card) (i : Nat) : List Card :=
  match d.get? i with
  | some c => d.set i { c with flipped := false }
  | none => d

/-- Firing the scheduled timer callback: the match callback marks both cards
matched, the mismatch callback flips both back; both empty `flipped` and
release the lock. -/
def runPending (s : MemState) : MemState :=
  match s.pending with
  | none => s
  | some (Pending.resolveMatch a b) =>
    { s with
      deck := setMatchedAt (setMatchedAt s.deck a) b
      flipped := []
      locked := false
      pending := none }
  | some (Pending.resolveMismatch a b) =>
    { s with
      deck := setUnflippedAt (setUnflippedAt s.deck a) b
      flipped := []
      locked := false
      pending := none }

/-- The events that drive the memory-game state between resets: a card click
or a scheduled timer firing. -/
inductive MemEvent where
  | click (idx : Nat)
  | fire
deriving DecidableEq

/-- One event step of the memory game. -/
def memStep (s : MemState) (e : MemEvent) : MemState :=
  match e with
  | MemEvent.click idx => onCardClick s idx
  | MemEvent.fire => runPending s

/-- A sequence of memory-game events. -/
def memRun (s : MemState) (es : List MemEvent) : MemState :=
  es.foldl memStep s

/-- Whether the card at index `i` of a deck is matched. -/
def matchedAt (d : List Card) (i : Nat) : Bool :=
  ((d.get? i).map Card.matched).getD false

/-- A two-card state with card 0 face-up, used as a concrete example: the two
cards form a pair (equal `id`). -/
def demoMatchState : MemState :=
  { deck := [⟨0, "x", 0, true, false⟩, ⟨0, "x", 1, false, false⟩]
    flipped := [0]
    moves := 0
    hasStarted := true
    finished := false
    locked := false
    pending := none }

/-- A two-card state with card 0 face-up whose two cards do NOT form a pair
(distinct `id`s). -/
def demoMismatchState : MemState :=
  { deck := [⟨0, "x", 0, true, false⟩, ⟨1, "y", 1, false, false⟩]
    flipped := [0]
    moves := 0
    hasStarted := true
    finished := false
    locked := false
    pending := none }

/-- A finished game state, used as a concrete example for the no-op guards. -/
def demoFinishedState : MemState :=
  { deck := [⟨0, "x", 0, true, true⟩, ⟨0, "x", 1, true, true⟩]
    flipped := []
    moves := 1
    hasStarted := true
    finished := true
    locked := false
    pending := none }

-- -------------------- JIGSAW PUZZLE --------------------

/-- `type Tile` from the source.  `bgPos` is the background offset the source
renders as the string `"${col*step}% ${row*step}%"` with
`step = 100 / (grid - 1)`; it is modelled as the exact pair of rational
percentages (string formatting of the float is irrelevant to, and unused by,
the id/order logic). -/
structure Tile where
  id : Nat
  order : Nat
  bgPos : ℚ × ℚ
deriving DecidableEq

/-- `makeTiles(img, grid)`: one tile per cell `i < grid²`, with `id = i`,
`order = i`, and background offset derived from `i`'s row and column.  The
source's `img` argument is not used in tile construction and is omitted. -/
def makeTiles (grid : Nat) : List Tile :=
  (List.range (grid * grid)).map (fun i =>
    { id := i
      order := i
      bgPos := (((i % grid : Nat) : ℚ) * (100 / ((grid : ℚ) - 1)),
                ((i / grid : Nat) : ℚ) * (100 / ((grid : ℚ) - 1))) })

/-- `isSolved(tiles)`: a non-empty board with every tile at its home
position (`üres tábla NEM kész` — an empty board is NOT solved). -/
def isSolved (tiles : List Tile) : Bool :=
  decide (0 < tiles.length) && tiles.all (fun t => t.id == t.order)

/-- `onSwap(fromOrder, toOrder)`: exchange the current positions of the tiles
sitting at `fromOrder` and `toOrder`; no-op when the two are equal. -/
def onSwap (fromOrder toOrder : Nat) (tiles : List Tile) : List Tile :=
  if fromOrder == toOrder then tiles
  else
    tiles.map (fun t =>
      if t.order == fromOrder then { t with order := toOrder }
      else if t.order == toOrder then { t with order := fromOrder }
      else t)

/-- The puzzle's `startNew`: build the identity tiles, shuffle the list of
orders, reverse it if the shuffle happened to return the identity, and
reassign the shuffled order to each tile positionally. -/
def startNew (rand : Nat → Nat) (grid : Nat) : List Tile :=
  let t := makeTiles grid
  let shuffledOrders := shuffle rand (t.map Tile.order)
  let finalOrders :=
    if shuffledOrders.enum.all (fun p => p.2 == p.1) then shuffledOrders.reverse
    else shuffledOrders
  t.enum.map (fun p => { p.2 with order := finalOrders.getD p.1 0 })

-- -------------------- CAMPAIGN PERSISTENCE --------------------

/-- `ch.charCodeAt(0)` for the code point `ch` produced by `for...of`: the
code point itself below `0x10000`, otherwise its high surrogate. -/
def jsCharCode (c : Char) : Nat :=
  if c.toNat < 0x10000 then c.toNat else 0xD800 + (c.toNat - 0x10000) / 1024

/-- One step `h = (h * 33) ^ code` of the djb2-style hash.  JavaScript's `^`
coerces both operands to 32-bit integers; tracking `h` as its unsigned 32-bit
bit pattern is congruent mod `2^32` to the signed value the source holds, and
the final `h >>> 0` is exactly that pattern. -/
def hashStep (h code : Nat) : Nat :=
  (h * 33 % 2 ^ 32) ^^^ code % 2 ^ 32

/-- `hashPhotos(photos)`: djb2-xor over the characters of `photos.join("|")`,
seeded with 5381, rendered in base 36. -/
def hashPhotos (photos : List String) : String :=
  let joined := String.intercalate "|" photos
  let h := joined.data.foldl (fun h c => hashStep h (jsCharCode c)) 5381
  String.mk (Nat.toDigits 36 h)

/-- `type CampaignState` from the source.  The index is an `Int` because the
clamp `Math.min(Math.max(i, 0), len - 1)` can produce `-1` when the photo
list is empty. -/
structure CampaignState where
  index : Int
  solved : List Bool
deriving DecidableEq

/-- What `localStorage.getItem(progKey)` + `JSON.parse` can yield: no stored
value, a string `JSON.parse` throws on, or a parsed object whose `index` and
`solved` fields may each be absent. -/
inductive StoredProg where
  | absent
  | malformed
  | parsed (index : Option Int) (solved : Option (List Bool))
deriving DecidableEq

/-- The default campaign: first image, nothing solved. -/
def defaultCampaign (photos : List String) : CampaignState :=
  { index := 0, solved := photos.map (fun _ => false) }

/-- `loadCampaign()`: defaults when nothing is stored or parsing throws;
otherwise rebuild `solved` entrywise with `parsed.solved?.[i] ?? false` and
clamp `parsed.index ?? 0` with `Math.min(Math.max(·, 0), len - 1)`. -/
def loadCampaign (photos : List String) (stored : StoredProg) : CampaignState :=
  match stored with
  | StoredProg.absent => defaultCampaign photos
  | StoredProg.malformed => defaultCampaign photos
  | StoredProg.parsed pindex psolved =>
    let len := photos.length
    let solved := (List.range len).map (fun i =>
      match psolved with
      | some arr => arr.getD i false
      | none => false)
    let index := min (max (pindex.getD 0) 0) ((len : Int) - 1)
    { index := index, solved := solved }

/-- `if (!newSolved[i]) newSolved[i] = true` for an `Int` index: a negative
index writes a non-element property in JavaScript and an index past the end
writes a hole-extended slot, neither of which changes any list element; both
are modelled as no-ops. -/
def markSolved (solved : List Bool) (i : Int) : List Bool :=
  if i < 0 then solved
  else if solved.getD i.toNat false then solved
  else solved.set i.toNat true

/-- The level-completion effect (`solved && !prevSolvedRef.current` branch):
flag the current image solved, leaving the index unchanged. -/
def completeLevel (c : CampaignState) : CampaignState :=
  { index := c.index, solved := markSolved c.solved c.index }

/-- `handleNextLevel()`: advance the campaign index by one when not on the
last image, copying the solved flags; otherwise leave the state unchanged. -/
def handleNextLevel (photos : List String) (c : CampaignState) : CampaignState :=
  if c.index < (photos.length : Int) - 1 then
    { index := c.index + 1, solved := c.solved }
  else c

/-- `photos.findIndex(p => p === value)`: the first matching index, `-1` when
absent. -/
def jsFindIndex (photos : List String) (value : String) : Int :=
  match photos.findIdx? (fun p => p == value) with
  | some i => (i : Int)
  | none => -1

/-- `handleSelectImg(value)`: jump the campaign to
`Math.max(0, photos.findIndex(p => p === value))`, copying the solved flags. -/
def handleSelectImg (photos : List String) (value : String) (c : CampaignState) :
    CampaignState :=
  { index := max 0 (jsFindIndex photos value), solved := c.solved }

/-- The campaign navigation actions of the claim: the explicit advance and a
manual image selection. -/
inductive NavEvent where
  | next
  | select (value : String)
deriving DecidableEq

/-- One navigation step on the campaign state. -/
def navStep (photos : List String) (c : CampaignState) (e : NavEvent) : CampaignState :=
  match e with
  | NavEvent.next => handleNextLevel photos c
  | NavEvent.select v => handleSelectImg photos v c

/-- A sequence of navigation steps. -/
def navRun (photos : List String) (c : CampaignState) (es : List NavEvent) :
    CampaignState :=
  es.foldl (navStep photos) c

/-- The multiset of pair ids a fresh deck should carry: each id below `p`,
twice. -/
def pairIds (p : Nat) : List Nat :=
  (List.range p).flatMap (fun k => [k, k])

-- -------------------- SHUFFLE PERMUTATION LEMMAS --------------------

theorem set_of_get?_eq {α : Type} :
    ∀ (l : List α) (n : Nat) (a : α), l.get? n = some a → l.set n a = l
  | [], _, _, h => by simp at h
  | x :: xs, 0, a, h => by
    simp only [List.get?_eq_getElem?, List.getElem?_cons_zero, Option.some.injEq] at h
    simp [h]
  | x :: xs, n + 1, a, h => by
    simp only [List.get?_eq_getElem?, List.getElem?_cons_succ] at h
    simp only [List.set_cons_succ]
    rw [set_of_get?_eq xs n a (by simpa using h)]

theorem count_set_swap_aux {α : Type} [DecidableEq α] (b a : α) :
    ∀ (l : List α) (n : Nat), n < l.length →
      (l.set n b).count a + (if l.getD n b == a then 1 else 0)
        = l.count a + (if b == a then 1 else 0)
  | [], n, h => by simp at h
  | x :: xs, 0, _ => by
    simp only [List.set_cons_zero, List.getD_cons_zero, List.count_cons]
    omega
  | x :: xs, n + 1, h => by
    simp only [List.set_cons_succ, List.getD_cons_succ, List.count_cons]
    have ih := count_set_swap_aux b a xs n (by simpa using h)
    omega

theorem count_listSwap {α : Type} [DecidableEq α] (l : List α) (i j : Nat) (a : α) :
    (listSwap l i j).count a = l.count a := by
  unfold listSwap
  split
  case _ x y h1 h2 =>
    by_cases hij : i = j
    · subst hij
      rw [h1] at h2
      have hxy : x = y := by injection h2
      subst hxy
      rw [List.set_set, set_of_get?_eq l i x h1]
    · have hi : i < l.length := by
        by_contra hc
        rw [List.get?_eq_none.mpr (Nat.le_of_not_lt hc)] at h1
        exact Option.noConfusion h1
      have hj : j < l.length := by
        by_contra hc
        rw [List.get?_eq_none.mpr (Nat.le_of_not_lt hc)] at h2
        exact Option.noConfusion h2
      have h1g : l[i]? = some x := by rw [← List.get?_eq_getElem?]; exact h1
      have h2g : l[j]? = some y := by rw [← List.get?_eq_getElem?]; exact h2
      have hgi : l.getD i y = x := by
        rw [List.getD_eq_getElem?_getD, h1g]; rfl
      have hgj : (l.set i y).getD j x = y := by
        rw [List.getD_eq_getElem?_getD, List.getElem?_set_ne hij, h2g]; rfl
      have hA := count_set_swap_aux x a (l.set i y) j (by simpa using hj)
      have hB := count_set_swap_aux y a l i hi
      rw [hgj] at hA
      rw [hgi] at hB
      omega
  case _ => rfl

theorem listSwap_perm {α : Type} [DecidableEq α] (l : List α) (i j : Nat) :
    List.Perm (listSwap l i j) l :=
  List.perm_iff_count.mpr (fun a => count_listSwap l i j a)

theorem fyLoop_perm {α : Type} [DecidableEq α] (rand : Nat → Nat) :
    ∀ (n : Nat) (l : List α), List.Perm (fyLoop rand n l) l
  | 0, _ => List.Perm.refl _
  | n + 1, l =>
    List.Perm.trans
      (fyLoop_perm rand n (listSwap l (n + 1) (rand (n + 1) % (n + 2))))
      (listSwap_perm l (n + 1) (rand (n + 1) % (n + 2)))

theorem shuffle_perm {α : Type} [DecidableEq α] (rand : Nat → Nat) (arr : List α) :
    List.Perm (shuffle rand arr) arr :=
  fyLoop_perm rand (arr.length - 1) arr

theorem shuffle_length {α : Type} [DecidableEq α] (rand : Nat → Nat) (arr : List α) :
    (shuffle rand arr).length = arr.length :=
  (shuffle_perm rand arr).length_eq

-- -------------------- C1: MEMORY DECK SHAPE --------------------

theorem map_id_reindex (l : List Card) :
    (l.enum.map (fun p => { p.2 with index := (p.1 : Int) })).map Card.id
      = l.map Card.id := by
  rw [List.map_map]
  have h : (Card.id ∘ fun p : Nat × Card => { p.2 with index := (p.1 : Int) })
      = Card.id ∘ Prod.snd := rfl
  rw [h, ← List.map_map, List.enum_map_snd]

theorem pair_cards_map_id (unique : List String) :
    (unique.enum.flatMap (fun p =>
      [ ({ id := p.1, img := p.2, index := -1, flipped := false,
           matched := false } : Card),
        { id := p.1, img := p.2, index := -1, flipped := false,
          matched := false } ])).map Card.id
      = pairIds unique.length := by
  rw [List.map_flatMap]
  unfold pairIds
  rw [← List.enum_map_fst unique, List.flatMap_map]
  rfl

theorem createMemoryDeck_ids_perm (rand : Nat → Nat) (photos : List String) (p : Nat) :
    List.Perm ((createMemoryDeck rand photos p).map Card.id) (pairIds p) := by
  simp only [createMemoryDeck]
  rw [map_id_reindex]
  have hp := (shuffle_perm rand
    (((List.range p).map (fun i => photos.getD (i % photos.length) "")).enum.flatMap
      (fun p =>
        [ ({ id := p.1, img := p.2, index := -1, flipped := false,
             matched := false } : Card),
          { id := p.1, img := p.2, index := -1, flipped := false,
            matched := false } ]))).map Card.id
  rw [pair_cards_map_id] at hp
  simpa using hp

theorem pairIds_length (p : Nat) : (pairIds p).length = 2 * p := by
  induction p with
  | zero => rfl
  | succ n ih =>
    unfold pairIds at ih ⊢
    rw [List.range_succ, List.flatMap_append, List.length_append, ih]
    simp only [List.flatMap_cons, List.flatMap_nil, List.append_nil, List.length_cons,
      List.length_nil]
    omega

theorem pairIds_count (p k : Nat) : (pairIds p).count k = if k < p then 2 else 0 := by
  induction p with
  | zero => simp [pairIds]
  | succ n ih =>
    unfold pairIds at ih ⊢
    rw [List.range_succ, List.flatMap_append, List.count_append, ih]
    simp only [List.flatMap_cons, List.flatMap_nil, List.append_nil]
    by_cases h : k = n
    · subst h
      have h1 : ¬ k < k := Nat.lt_irrefl k
      have h2 : k < k + 1 := Nat.lt_succ_self k
      simp [h1, h2, List.count_cons]
    · have h2 : List.count k [n, n] = 0 := by
        simp [List.count_cons, Ne.symm h]
      rw [h2]
      by_cases hlt : k < n
      · simp [hlt, Nat.lt_succ_of_lt hlt]
      · have : ¬ k < n + 1 := by omega
        simp [hlt, this]

theorem pairIds_toFinset (p : Nat) : (pairIds p).toFinset = Finset.range p := by
  ext a
  simp [pairIds, List.mem_flatMap]

/-- C1: for every pair count `p ≥ 1` and non-empty photo list, and every
outcome of the shuffle, `createMemoryDeck` returns exactly `2p` cards, whose
`id` field takes exactly `p` distinct values, each id occurring on exactly
two cards. -/
theorem createMemoryDeck_deck_shape (rand : Nat → Nat) (photos : List String)
    (p : Nat) (hp : 1 ≤ p) (hphotos : photos ≠ []) :
    (createMemoryDeck rand photos p).length = 2 * p
    ∧ ((createMemoryDeck rand photos p).map Card.id).toFinset.card = p
    ∧ ∀ k : Nat, ((createMemoryDeck rand photos p).map Card.id).count k
        = if k < p then 2 else 0 := by
  have hperm := createMemoryDeck_ids_perm rand photos p
  refine ⟨?_, ?_, ?_⟩
  · have hlen := hperm.length_eq
    rw [List.length_map] at hlen
    rw [hlen, pairIds_length]
  · rw [List.toFinset_eq_of_perm _ _ hperm, pairIds_toFinset, Finset.card_range]
  · intro k
    rw [hperm.count_eq, pairIds_count]

/-- Witness for C1 at `p = 2`, `photos = ["a"]`, a constant random source. -/
theorem createMemoryDeck_deck_shape_witness :
    1 ≤ 2 ∧ (["a"] : List String) ≠ []
    ∧ (createMemoryDeck (fun _ => 0) ["a"] 2).length = 2 * 2
    ∧ ((createMemoryDeck (fun _ => 0) ["a"] 2).map Card.id).toFinset.card = 2
    ∧ ((createMemoryDeck (fun _ => 0) ["a"] 2).map Card.id).count 0 = 2 := by
  have h := createMemoryDeck_deck_shape (fun _ => 0) ["a"] 2 (by decide) (by decide)
  exact ⟨by decide, by decide, h.1, h.2.1, (h.2.2 0).trans (by decide)⟩

-- -------------------- C4: SWAP IS AN INVOLUTION --------------------

/-- C4: applying `onSwap(a, b)` twice in succession restores the original
tile list, for every tile list and all positions `a`, `b` — including `a = b`
and positions that are not the current order of any tile. -/
theorem onSwap_involution (a b : Nat) (tiles : List Tile) :
    onSwap a b (onSwap a b tiles) = tiles := by
  unfold onSwap
  by_cases hab : a = b
  · simp [hab]
  · have hne : (a == b) = false := beq_eq_false_iff_ne.mpr hab
    simp only [hne, Bool.false_eq_true, if_false, List.map_map]
    have hfun : ((fun t : Tile =>
        if t.order == a then { t with order := b }
        else if t.order == b then { t with order := a }
        else t) ∘ (fun t : Tile =>
        if t.order == a then { t with order := b }
        else if t.order == b then { t with order := a }
        else t)) = id := by
      funext t
      rcases t with ⟨tid, tord, tbg⟩
      by_cases h1 : tord = a
      · subst h1
        simp [Function.comp, hne, Ne.symm hab]
      · by_cases h2 : tord = b
        · subst h2
          simp [Function.comp, beq_eq_false_iff_ne.mpr h1]
        · simp [Function.comp, beq_eq_false_iff_ne.mpr h1, beq_eq_false_iff_ne.mpr h2]
    rw [hfun, List.map_id]

-- -------------------- TILE / C2 / C3 LEMMAS --------------------

theorem makeTiles_map_order (g : Nat) :
    (makeTiles g).map Tile.order = List.range (g * g) := by
  unfold makeTiles
  rw [List.map_map]
  exact List.map_id _

theorem makeTiles_map_id (g : Nat) :
    (makeTiles g).map Tile.id = List.range (g * g) := by
  unfold makeTiles
  rw [List.map_map]
  exact List.map_id _

theorem makeTiles_length (g : Nat) : (makeTiles g).length = g * g := by
  unfold makeTiles
  rw [List.length_map, List.length_range]

theorem reassign_map_order (t : List Tile) (os : List Nat) (hlen : os.length = t.length) :
    (t.enum.map (fun p => { p.2 with order := os.getD p.1 0 })).map Tile.order = os := by
  apply List.ext_getElem?
  intro n
  rw [List.getElem?_map, List.getElem?_map, List.getElem?_enum]
  by_cases hn : n < t.length
  · rw [List.getElem?_eq_getElem hn, List.getElem?_eq_getElem (hlen ▸ hn)]
    simp only [Option.map_some']
    rw [List.getD_eq_getElem?_getD, List.getElem?_eq_getElem (hlen ▸ hn)]
    rfl
  · rw [List.getElem?_eq_none (Nat.le_of_not_lt hn),
      List.getElem?_eq_none (hlen ▸ Nat.le_of_not_lt hn)]
    rfl

theorem reassign_map_id (t : List Tile) (os : List Nat) :
    (t.enum.map (fun p => { p.2 with order := os.getD p.1 0 })).map Tile.id
      = t.map Tile.id := by
  rw [List.map_map]
  have h : (Tile.id ∘ fun p : Nat × Tile => { p.2 with order := os.getD p.1 0 })
      = Tile.id ∘ Prod.snd := rfl
  rw [h, ← List.map_map, List.enum_map_snd]

theorem startNew_map_order (rand : Nat → Nat) (g : Nat) :
    (startNew rand g).map Tile.order
      = (if (shuffle rand (List.range (g * g))).enum.all (fun p => p.2 == p.1)
         then (shuffle rand (List.range (g * g))).reverse
         else shuffle rand (List.range (g * g))) := by
  simp only [startNew, makeTiles_map_order]
  apply reassign_map_order
  have hs : (shuffle rand (List.range (g * g))).length = g * g := by
    rw [shuffle_length, List.length_range]
  split <;> simp [hs, makeTiles_length]

theorem startNew_map_id (rand : Nat → Nat) (g : Nat) :
    (startNew rand g).map Tile.id = List.range (g * g) := by
  simp only [startNew]
  rw [reassign_map_id, makeTiles_map_id]

theorem onSwap_map_order (a b : Nat) (hab : a ≠ b) (tiles : List Tile) :
    (onSwap a b tiles).map Tile.order
      = (tiles.map Tile.order).map
          (fun x => if x = a then b else if x = b then a else x) := by
  unfold onSwap
  have hne : (a == b) = false := beq_eq_false_iff_ne.mpr hab
  simp only [hne, Bool.false_eq_true, if_false, List.map_map]
  apply List.map_congr_left
  intro t _
  by_cases h1 : t.order = a
  · simp [Function.comp, h1]
  · by_cases h2 : t.order = b
    · simp [Function.comp, h1, h2, Ne.symm hab, beq_eq_false_iff_ne.mpr h1]
    · simp [Function.comp, h1, h2, beq_eq_false_iff_ne.mpr h1,
        beq_eq_false_iff_ne.mpr h2]

theorem swap_map_range_perm (n a b : Nat) (ha : a < n) (hb : b < n) :
    List.Perm
      ((List.range n).map (fun x => if x = a then b else if x = b then a else x))
      (List.range n) := by
  have hinv : Function.Involutive
      (fun x => if x = a then b else if x = b then a else x) := by
    intro x
    by_cases h1 : x = a
    · subst h1
      by_cases h2 : b = x
      · simp [h2]
      · simp [h2, Ne.symm h2]
    · by_cases h2 : x = b
      · subst h2
        simp [h1]
      · simp [h1, h2]
  have hmem : ∀ x, x < n → (if x = a then b else if x = b then a else x) < n := by
    intro x hx
    by_cases h1 : x = a
    · simpa [h1] using hb
    · by_cases h2 : x = b
      · have hba : ¬ b = a := fun hc => h1 (h2.trans hc)
        simpa [h2, hba] using ha
      · simpa [h1, h2] using hx
  apply List.perm_of_nodup_nodup_toFinset_eq
  · exact List.Nodup.map hinv.injective (List.nodup_range n)
  · exact List.nodup_range n
  · ext y
    simp only [List.mem_toFinset, List.mem_map, List.mem_range]
    constructor
    · rintro ⟨x, hx, rfl⟩
      exact hmem x hx
    · intro hy
      exact ⟨if y = a then b else if y = b then a else y, hmem y hy, hinv y⟩

theorem onSwap_perm_invariant (n a b : Nat) (tiles : List Tile)
    (ha : a < n) (hb : b < n)
    (h : List.Perm (tiles.map Tile.order) (List.range n)) :
    List.Perm ((onSwap a b tiles).map Tile.order) (List.range n) := by
  by_cases hab : a = b
  · subst hab
    simpa [onSwap] using h
  · rw [onSwap_map_order a b hab]
    exact (h.map _).trans (swap_map_range_perm n a b ha hb)

/-- C2: `makeTiles` builds tiles with ids `0..g²-1` and `order = id`
(identity permutation); the id→order mapping stays a permutation of `[0,n)`
after the `startNew` shuffle (for every outcome of the randomness) and after
every `onSwap(a, b)` on grid positions `a, b < n`. -/
theorem tiles_id_order_permutation (g : Nat) (hg : 2 ≤ g) :
    ((makeTiles g).map Tile.id = List.range (g * g)
      ∧ ∀ t ∈ makeTiles g, t.order = t.id)
    ∧ (∀ rand : Nat → Nat,
        List.Perm ((startNew rand g).map Tile.order) (List.range (g * g)))
    ∧ ∀ (n a b : Nat) (tiles : List Tile), a < n → b < n →
        List.Perm (tiles.map Tile.order) (List.range n) →
        List.Perm ((onSwap a b tiles).map Tile.order) (List.range n) := by
  refine ⟨⟨makeTiles_map_id g, ?_⟩, ?_, ?_⟩
  · intro t ht
    simp only [makeTiles, List.mem_map, List.mem_range] at ht
    obtain ⟨i, _, rfl⟩ := ht
    rfl
  · intro rand
    rw [startNew_map_order]
    have hper : List.Perm (shuffle rand (List.range (g * g))) (List.range (g * g)) :=
      shuffle_perm rand (List.range (g * g))
    split
    · exact (List.reverse_perm _).trans hper
    · exact hper
  · intro n a b tiles ha hb h
    exact onSwap_perm_invariant n a b tiles ha hb h

/-- Witness for C2 at `g = 2` with a constant random source and the swap
`onSwap 0 1` on the freshly built tiles. -/
theorem tiles_id_order_permutation_witness :
    2 ≤ 2
    ∧ (makeTiles 2).map Tile.id = List.range (2 * 2)
    ∧ List.Perm ((startNew (fun _ => 0) 2).map Tile.order) (List.range (2 * 2))
    ∧ List.Perm ((onSwap 0 1 (makeTiles 2)).map Tile.order) (List.range (2 * 2)) := by
  have h := tiles_id_order_permutation 2 (by decide)
  refine ⟨by decide, h.1.1, h.2.1 (fun _ => 0), ?_⟩
  apply h.2.2 (2 * 2) 0 1 (makeTiles 2) (by decide) (by decide)
  rw [makeTiles_map_order]

-- -------------------- C3: FRESH SHUFFLE IS NEVER SOLVED --------------------

/-- C3: for every grid size `g ≥ 2` and every outcome of the random shuffle,
the tile set produced by the puzzle's `startNew` (shuffle the orders; reverse
them if the shuffle returned the identity) is not solved. -/
theorem startNew_not_solved (rand : Nat → Nat) (g : Nat) (hg : 2 ≤ g) :
    isSolved (startNew rand g) = false := by
  have hn : 4 ≤ g * g := Nat.mul_le_mul hg hg
  by_contra hfalse
  have hsol : isSolved (startNew rand g) = true := by
    cases h : isSolved (startNew rand g)
    · exact absurd h hfalse
    · rfl
  unfold isSolved at hsol
  rw [Bool.and_eq_true] at hsol
  have hall := hsol.2
  have hmaps : (startNew rand g).map Tile.id = (startNew rand g).map Tile.order := by
    apply List.map_congr_left
    intro t ht
    exact beq_iff_eq.mp (List.all_eq_true.mp hall t ht)
  rw [startNew_map_id, startNew_map_order] at hmaps
  have hslen : (shuffle rand (List.range (g * g))).length = g * g := by
    rw [shuffle_length, List.length_range]
  by_cases hc :
      (shuffle rand (List.range (g * g))).enum.all (fun p => p.2 == p.1) = true
  · rw [if_pos hc] at hmaps
    -- the shuffle returned the identity, so the final orders are reversed;
    -- position 0 would have to hold order g*g-1
    have h0 : (0 : Nat) < g * g := by omega
    have hcong := congrArg (fun l => l[0]?) hmaps
    simp only at hcong
    rw [List.getElem?_range h0,
      List.getElem?_reverse (by rw [hslen]; exact h0)] at hcong
    have hidx : (shuffle rand (List.range (g * g))).length - 1 - 0
        < (shuffle rand (List.range (g * g))).length := by omega
    rw [List.getElem?_eq_getElem hidx] at hcong
    have h01 := Option.some.inj hcong
    have hmem : ((shuffle rand (List.range (g * g))).length - 1 - 0,
        (shuffle rand (List.range (g * g))).get
          ⟨(shuffle rand (List.range (g * g))).length - 1 - 0, hidx⟩)
        ∈ (shuffle rand (List.range (g * g))).enum := by
      rw [List.mem_enum_iff_getElem?]
      simp [List.getElem?_eq_getElem hidx]
    have hlast := beq_iff_eq.mp (List.all_eq_true.mp hc _ hmem)
    simp only [List.get_eq_getElem] at hlast
    rw [hlast] at h01
    omega
  · rw [if_neg hc] at hmaps
    have hcf : (shuffle rand (List.range (g * g))).enum.all (fun p => p.2 == p.1)
        = false := Bool.eq_false_iff.mpr hc
    obtain ⟨x, hxmem, hx⟩ := List.all_eq_false.mp hcf
    rw [← hmaps, List.mem_enum_iff_getElem?] at hxmem
    have hx1 : x.1 < g * g := by
      by_contra hcc
      rw [List.getElem?_eq_none
        (by rw [List.length_range]; omega : (List.range (g * g)).length ≤ x.1)] at hxmem
      exact Option.noConfusion hxmem
    rw [List.getElem?_range hx1] at hxmem
    exact hx (beq_iff_eq.mpr (Option.some.inj hxmem).symm)

/-- Witness for C3 at `g = 2` with a constant random source. -/
theorem startNew_not_solved_witness :
    2 ≤ 2 ∧ isSolved (startNew (fun _ => 0) 2) = false :=
  ⟨by decide, startNew_not_solved (fun _ => 0) 2 (by decide)⟩

-- -------------------- C6: FLIP GUARD CLAUSES --------------------

/-- C6: `onCardClick(idx)` leaves the entire game state unchanged whenever the
game is finished, the board is locked, two cards are already face-up, or the
card at `idx` is already matched or flipped. -/
theorem onCardClick_noop (s : MemState) (idx : Nat)
    (h : s.finished = true ∨ s.locked = true ∨ 2 ≤ s.flipped.length
      ∨ (s.deck.getD idx defaultCard).matched = true
      ∨ (s.deck.getD idx defaultCard).flipped = true) :
    onCardClick s idx = s := by
  simp only [onCardClick]
  split
  · rfl
  next hguard =>
    split
    · rfl
    next hlen =>
      split
      · rfl
      next hcard =>
        exfalso
        simp only [Bool.or_eq_true, not_or] at hguard hcard
        rcases h with h | h | h | h | h
        · exact hguard.1 h
        · exact hguard.2 h
        · exact hlen h
        · exact hcard.1 h
        · exact hcard.2 h

/-- Witness for C6: clicking any card of a finished game changes nothing. -/
theorem onCardClick_noop_witness :
    demoFinishedState.finished = true
    ∧ onCardClick demoFinishedState 0 = demoFinishedState :=
  ⟨rfl, onCardClick_noop demoFinishedState 0 (Or.inl rfl)⟩

-- -------------------- C5: MATCH / MISMATCH RESOLUTION --------------------

theorem setMatchedAt_length (d : List Card) (i : Nat) :
    (setMatchedAt d i).length = d.length := by
  unfold setMatchedAt
  split
  · rw [List.length_set]
  · rfl

theorem setUnflippedAt_length (d : List Card) (i : Nat) :
    (setUnflippedAt d i).length = d.length := by
  unfold setUnflippedAt
  split
  · rw [List.length_set]
  · rfl

theorem setMatchedAt_get?_ne (d : List Card) (i j : Nat) (hij : i ≠ j) :
    (setMatchedAt d i).get? j = d.get? j := by
  unfold setMatchedAt
  split
  · rw [List.get?_eq_getElem?, List.get?_eq_getElem?, List.getElem?_set_ne hij]
  · rfl

theorem setUnflippedAt_get?_ne (d : List Card) (i j : Nat) (hij : i ≠ j) :
    (setUnflippedAt d i).get? j = d.get? j := by
  unfold setUnflippedAt
  split
  · rw [List.get?_eq_getElem?, List.get?_eq_getElem?, List.getElem?_set_ne hij]
  · rfl

theorem setMatchedAt_matchedAt_self (d : List Card) (i : Nat) (hi : i < d.length) :
    matchedAt (setMatchedAt d i) i = true := by
  unfold setMatchedAt
  split
  next c hc =>
    unfold matchedAt
    rw [List.get?_eq_getElem?, List.getElem?_set_self (by simpa using hi)]
    rfl
  next hc =>
    exfalso
    rw [List.get?_eq_getElem?, List.getElem?_eq_getElem hi] at hc
    exact Option.noConfusion hc

theorem setUnflippedAt_flipped_self (d : List Card) (i : Nat) (hi : i < d.length) :
    ((setUnflippedAt d i).getD i defaultCard).flipped = false := by
  unfold setUnflippedAt
  split
  next c hc =>
    rw [List.getD_eq_getElem?_getD, List.getElem?_set_self (by simpa using hi)]
    rfl
  next hc =>
    exfalso
    rw [List.get?_eq_getElem?, List.getElem?_eq_getElem hi] at hc
    exact Option.noConfusion hc

theorem matchedAt_set_same_matched (d : List Card) (i : Nat) (c : Card)
    (hc : c.matched = (d.getD i defaultCard).matched) (j : Nat) :
    matchedAt (d.set i c) j = matchedAt d j := by
  unfold matchedAt
  by_cases hij : i = j
  · subst hij
    by_cases hi : i < d.length
    · rw [List.get?_eq_getElem?, List.get?_eq_getElem?,
        List.getElem?_set_self (by simpa using hi), List.getElem?_eq_getElem hi]
      simp only [Option.map_some', Option.getD_some]
      rw [hc, List.getD_eq_getElem?_getD, List.getElem?_eq_getElem hi]
      rfl
    · rw [List.set_eq_of_length_le (Nat.le_of_not_lt hi)]
  · rw [List.get?_eq_getElem?, List.get?_eq_getElem?, List.getElem?_set_ne hij]

theorem matchedAt_setMatchedAt (d : List Card) (i j : Nat)
    (h : matchedAt d j = true) : matchedAt (setMatchedAt d i) j = true := by
  by_cases hij : i = j
  · subst hij
    unfold matchedAt at h
    by_cases hi : i < d.length
    · exact setMatchedAt_matchedAt_self d i hi
    · rw [List.get?_eq_getElem?, List.getElem?_eq_none (Nat.le_of_not_lt hi)] at h
      exact absurd h (by simp)
  · unfold matchedAt
    rw [setMatchedAt_get?_ne d i j hij]
    exact h

theorem matchedAt_setUnflippedAt (d : List Card) (i j : Nat)
    (h : matchedAt d j = true) : matchedAt (setUnflippedAt d i) j = true := by
  unfold setUnflippedAt
  split
  next c hc =>
    rw [matchedAt_set_same_matched d i _ (by
      rw [List.getD_eq_getElem?_getD, ← List.get?_eq_getElem?, hc]
      rfl) j]
    exact h
  next => exact h

theorem matchedAt_set_flip (d : List Card) (idx j : Nat) :
    matchedAt (d.set idx { d.getD idx defaultCard with flipped := true }) j
      = matchedAt d j :=
  matchedAt_set_same_matched d idx { d.getD idx defaultCard with flipped := true }
    rfl j

theorem matchedAt_memStep (s : MemState) (e : MemEvent) (j : Nat)
    (h : matchedAt s.deck j = true) : matchedAt (memStep s e).deck j = true := by
  cases e
  case click idx =>
    simp only [memStep, onCardClick]
    split
    · exact h
    split
    · exact h
    split
    · exact h
    next hcard =>
      split
      · rw [matchedAt_set_flip]
        exact h
      · rw [matchedAt_set_flip]
        exact h
  case fire =>
    simp only [memStep, runPending]
    split
    · exact h
    · exact matchedAt_setMatchedAt _ _ _ (matchedAt_setMatchedAt _ _ _ h)
    · exact matchedAt_setUnflippedAt _ _ _ (matchedAt_setUnflippedAt _ _ _ h)

theorem matchedAt_memRun (s : MemState) (es : List MemEvent) (j : Nat)
    (h : matchedAt s.deck j = true) : matchedAt (memRun s es).deck j = true := by
  induction es generalizing s with
  | nil => exact h
  | cons e es ih => exact ih (memStep s e) (matchedAt_memStep s e j h)

theorem setUnflippedAt_getD_ne (d : List Card) (i j : Nat) (hij : i ≠ j) :
    (setUnflippedAt d i).getD j defaultCard = d.getD j defaultCard := by
  rw [List.getD_eq_getElem?_getD, List.getD_eq_getElem?_getD,
    ← List.get?_eq_getElem?, ← List.get?_eq_getElem?, setUnflippedAt_get?_ne d i j hij]

theorem onCardClick_second_flip (s : MemState) (a idx : Nat)
    (hf : s.finished = false) (hl : s.locked = false)
    (hfl : s.flipped = [a])
    (hi : idx < s.deck.length) (hne : a ≠ idx)
    (hcm : (s.deck.getD idx defaultCard).matched = false)
    (hcf : (s.deck.getD idx defaultCard).flipped = false) :
    onCardClick s idx =
      { s with
        deck := s.deck.set idx { s.deck.getD idx defaultCard with flipped := true }
        flipped := [a, idx]
        moves := s.moves + 1
        hasStarted := true
        locked := true
        pending := some (if (s.deck.getD a defaultCard).id
            == (s.deck.getD idx defaultCard).id
          then Pending.resolveMatch a idx
          else Pending.resolveMismatch a idx) } := by
  have hga : ((s.deck.set idx
      { id := (s.deck.getD idx defaultCard).id
        img := (s.deck.getD idx defaultCard).img
        index := (s.deck.getD idx defaultCard).index
        flipped := true
        matched := (s.deck.getD idx defaultCard).matched }).getD a defaultCard).id
      = (s.deck.getD a defaultCard).id := by
    rw [List.getD_eq_getElem?_getD, List.getElem?_set_ne (Ne.symm hne),
      List.getD_eq_getElem?_getD]
  have hgb : ((s.deck.set idx
      { id := (s.deck.getD idx defaultCard).id
        img := (s.deck.getD idx defaultCard).img
        index := (s.deck.getD idx defaultCard).index
        flipped := true
        matched := (s.deck.getD idx defaultCard).matched }).getD idx defaultCard).id
      = (s.deck.getD idx defaultCard).id := by
    rw [List.getD_eq_getElem?_getD, List.getElem?_set_self (by simpa using hi)]
    rfl
  simp only [onCardClick]
  rw [hf, hl, hfl]
  rw [if_neg (by decide : ¬ ((false || false) = true))]
  rw [if_neg (by simp : ¬ 2 ≤ List.length [a])]
  rw [if_neg (show ¬ (((s.deck.getD idx defaultCard).matched
      || (s.deck.getD idx defaultCard).flipped) = true) by rw [hcm, hcf]; decide)]
  simp only [List.cons_append, List.nil_append]
  rw [if_pos (by rfl : (List.length [a, idx] == 2) = true)]
  simp only [List.getD_cons_zero, List.getD_cons_succ]
  rw [hga, hgb]

theorem matchedAt_setMatchedAt_ne (d : List Card) (i j : Nat) (hij : i ≠ j) :
    matchedAt (setMatchedAt d i) j = matchedAt d j := by
  unfold matchedAt
  rw [setMatchedAt_get?_ne d i j hij]

/-- C5: flipping a second card whose id equals the first flipped card's id
schedules the match resolution, which marks both cards matched (and matched
cards stay matched across every subsequent click / timer event); flipping a
second card with a different id schedules the mismatch resolution, which
turns both cards face-down again; in both cases the flipped-pair list is
emptied and the lock released. -/
theorem flip_pair_resolution (s : MemState) (a idx : Nat)
    (hf : s.finished = false) (hl : s.locked = false)
    (hfl : s.flipped = [a])
    (ha : a < s.deck.length) (hi : idx < s.deck.length) (hne : a ≠ idx)
    (hcm : (s.deck.getD idx defaultCard).matched = false)
    (hcf : (s.deck.getD idx defaultCard).flipped = false) :
    (((s.deck.getD a defaultCard).id = (s.deck.getD idx defaultCard).id →
        matchedAt (runPending (onCardClick s idx)).deck a = true
        ∧ matchedAt (runPending (onCardClick s idx)).deck idx = true
        ∧ (runPending (onCardClick s idx)).flipped = []
        ∧ (runPending (onCardClick s idx)).locked = false)
      ∧ ((s.deck.getD a defaultCard).id ≠ (s.deck.getD idx defaultCard).id →
        ((runPending (onCardClick s idx)).deck.getD a defaultCard).flipped = false
        ∧ ((runPending (onCardClick s idx)).deck.getD idx defaultCard).flipped = false
        ∧ (runPending (onCardClick s idx)).flipped = []
        ∧ (runPending (onCardClick s idx)).locked = false))
    ∧ ∀ (t : MemState) (es : List MemEvent) (j : Nat),
        matchedAt t.deck j = true → matchedAt (memRun t es).deck j = true := by
  have hstep := onCardClick_second_flip s a idx hf hl hfl hi hne hcm hcf
  refine ⟨⟨?_, ?_⟩, fun t es j h => matchedAt_memRun t es j h⟩
  · intro hid
    rw [hstep]
    rw [if_pos (beq_iff_eq.mpr hid)]
    simp only [runPending]
    set D := s.deck.set idx { s.deck.getD idx defaultCard with flipped := true }
      with hDdef
    have hD : D.length = s.deck.length := by rw [hDdef, List.length_set]
    refine ⟨?_, ?_, by trivial, by trivial⟩
    · rw [matchedAt_setMatchedAt_ne _ idx a (Ne.symm hne)]
      exact setMatchedAt_matchedAt_self D a (by rw [hD]; exact ha)
    · exact setMatchedAt_matchedAt_self (setMatchedAt D a) idx
        (by rw [setMatchedAt_length, hD]; exact hi)
  · intro hid
    rw [hstep]
    rw [if_neg (show ¬ (((s.deck.getD a defaultCard).id
        == (s.deck.getD idx defaultCard).id) = true) by
      rw [beq_eq_false_iff_ne.mpr hid]; decide)]
    simp only [runPending]
    set D := s.deck.set idx { s.deck.getD idx defaultCard with flipped := true }
      with hDdef
    have hD : D.length = s.deck.length := by rw [hDdef, List.length_set]
    refine ⟨?_, ?_, by trivial, by trivial⟩
    · rw [setUnflippedAt_getD_ne _ idx a (Ne.symm hne)]
      exact setUnflippedAt_flipped_self D a (by rw [hD]; exact ha)
    · exact setUnflippedAt_flipped_self (setUnflippedAt D a) idx
        (by rw [setUnflippedAt_length, hD]; exact hi)

/-- Witness for C5 on the two-card pair state: clicking the second card of the
pair and firing the timer leaves both cards matched, with the flipped list
empty and the lock released. -/
theorem flip_pair_resolution_witness :
    demoMatchState.finished = false
    ∧ (demoMatchState.deck.getD 0 defaultCard).id
        = (demoMatchState.deck.getD 1 defaultCard).id
    ∧ matchedAt (runPending (onCardClick demoMatchState 1)).deck 0 = true
    ∧ matchedAt (runPending (onCardClick demoMatchState 1)).deck 1 = true
    ∧ (runPending (onCardClick demoMatchState 1)).flipped = []
    ∧ (runPending (onCardClick demoMatchState 1)).locked = false := by
  have h := flip_pair_resolution demoMatchState 0 1 rfl rfl rfl
    (by decide) (by decide) (by decide) (by decide) (by decide)
  have hm := h.1.1 (by decide)
  exact ⟨rfl, by decide, hm.1, hm.2.1, hm.2.2.1, hm.2.2.2⟩

-- -------------------- C7: CAMPAIGN LOADING --------------------

/-- Counterexample for C7 as stated: when the photo list has shrunk to
empty, the clamp `Math.min(Math.max(index, 0), length - 1)` produces `-1`,
which is not in the (empty) valid range `[0, photos.length)`. -/
theorem loadCampaign_empty_counterexample :
    (loadCampaign [] (StoredProg.parsed (some 5) (some []))).index = -1
    ∧ ¬ (0 ≤ (loadCampaign [] (StoredProg.parsed (some 5) (some []))).index
        ∧ (loadCampaign [] (StoredProg.parsed (some 5) (some []))).index
          < (([] : List String).length : Int)) := by
  constructor
  · decide
  · decide

/-- C7 (amended): provided the photo list is non-empty, `loadCampaign` always
returns an index in `[0, photos.length)` (clamping any out-of-range persisted
index), and returns the default state — index 0, all solved flags false —
when the persisted value is unparsable as well as when its fields are both
missing. -/
theorem loadCampaign_clamps (photos : List String) (stored : StoredProg)
    (hph : photos ≠ []) :
    (0 ≤ (loadCampaign photos stored).index
      ∧ (loadCampaign photos stored).index < (photos.length : Int))
    ∧ loadCampaign photos StoredProg.malformed = defaultCampaign photos
    ∧ loadCampaign photos (StoredProg.parsed none none) = defaultCampaign photos := by
  have hlen : 1 ≤ photos.length := List.length_pos.mpr hph
  refine ⟨?_, rfl, ?_⟩
  · cases stored with
    | absent =>
      simp only [loadCampaign, defaultCampaign]
      omega
    | malformed =>
      simp only [loadCampaign, defaultCampaign]
      omega
    | parsed pidx psolved =>
      simp only [loadCampaign]
      constructor
      · apply le_min
        · exact le_max_right _ _
        · omega
      · have h1 : min (max (pidx.getD 0) 0) ((photos.length : Int) - 1)
            ≤ (photos.length : Int) - 1 := min_le_right _ _
        omega
  · simp only [loadCampaign, defaultCampaign]
    rw [CampaignState.mk.injEq]
    constructor
    · simp only [Option.getD_none]
      omega
    · rw [List.map_const', List.map_const']
      rw [List.length_range]

-- -------------------- C8: HASH KEYING --------------------

/-- Counterexample for C8: `hashPhotos` only sees `photos.join("|")`, so the
distinct photo lists `["a|b"]` and `["a", "b"]` collide. -/
theorem hashPhotos_not_injective :
    hashPhotos ["a|b"] = hashPhotos ["a", "b"]
    ∧ (["a|b"] : List String) ≠ ["a", "b"] := by
  constructor
  · rfl
  · decide

/-- C8 (amended): `hashPhotos` factors through the `"|"`-join of the photo
list — any two photo lists with the same join (such as `["a|b"]` and
`["a", "b"]`) are hashed to the same storage key, so distinct photo lists are
not guaranteed distinct keys. -/
theorem hashPhotos_factors_through_join (ps qs : List String)
    (h : String.intercalate "|" ps = String.intercalate "|" qs) :
    hashPhotos ps = hashPhotos qs := by
  unfold hashPhotos
  rw [h]

/-- Witness for the amended C8 at the colliding pair. -/
theorem hashPhotos_factors_witness :
    String.intercalate "|" ["a|b"] = String.intercalate "|" ["a", "b"]
    ∧ hashPhotos ["a|b"] = hashPhotos ["a", "b"] :=
  ⟨by decide, hashPhotos_factors_through_join ["a|b"] ["a", "b"] (by decide)⟩

/-- Witness for the amended C7 on a one-photo list with a persisted index far
out of range. -/
theorem loadCampaign_clamps_witness :
    (["a"] : List String) ≠ []
    ∧ 0 ≤ (loadCampaign ["a"] (StoredProg.parsed (some 5) none)).index
    ∧ (loadCampaign ["a"] (StoredProg.parsed (some 5) none)).index
        < ((["a"] : List String).length : Int)
    ∧ loadCampaign ["a"] StoredProg.malformed = defaultCampaign ["a"] := by
  have h := loadCampaign_clamps ["a"] (StoredProg.parsed (some 5) none) (by decide)
  exact ⟨by decide, h.1.1, h.1.2, h.2.1⟩

-- -------------------- C9 / C10: CAMPAIGN NAVIGATION --------------------

theorem navStep_solved (photos : List String) (c : CampaignState) (e : NavEvent) :
    (navStep photos c e).solved = c.solved := by
  cases e with
  | next =>
    simp only [navStep, handleNextLevel]
    split
    · rfl
    · rfl
  | select v => rfl

theorem navRun_solved (photos : List String) (c : CampaignState)
    (es : List NavEvent) : (navRun photos c es).solved = c.solved := by
  induction es generalizing c with
  | nil => rfl
  | cons e es ih =>
    show (navRun photos (navStep photos c e) es).solved = c.solved
    rw [ih (navStep photos c e), navStep_solved]

/-- C9: completing image `i` (with `i` below the last index) flags it solved
without moving the index; the index becomes `i + 1` only through the explicit
advance `handleNextLevel`; and the solved flags are never changed by any
subsequent sequence of advance / image-selection navigation steps. -/
theorem campaign_progression (photos : List String) (c : CampaignState) (i : Nat)
    (hidx : c.index = (i : Int)) (hlt : (i : Int) < (photos.length : Int) - 1)
    (hsl : i < c.solved.length) :
    (completeLevel c).index = (i : Int)
    ∧ (completeLevel c).solved.getD i false = true
    ∧ (handleNextLevel photos (completeLevel c)).index = (i : Int) + 1
    ∧ ∀ (c' : CampaignState) (es : List NavEvent),
        (navRun photos c' es).solved = c'.solved := by
  refine ⟨?_, ?_, ?_, fun c' es => navRun_solved photos c' es⟩
  · show c.index = (i : Int)
    exact hidx
  · show (markSolved c.solved c.index).getD i false = true
    rw [hidx]
    unfold markSolved
    rw [if_neg (by omega : ¬ ((i : Int) < 0))]
    simp only [Int.toNat_natCast]
    split
    next hgd => exact hgd
    next hgd =>
      rw [List.getD_eq_getElem?_getD, List.getElem?_set_self (by simpa using hsl)]
      rfl
  · unfold handleNextLevel
    have hci : (completeLevel c).index = (i : Int) := hidx
    rw [if_pos (by rw [hci]; exact hlt), hci]

/-- Witness for C9 on a two-photo campaign at index 0. -/
theorem campaign_progression_witness :
    (⟨0, [false, false]⟩ : CampaignState).index = ((0 : Nat) : Int)
    ∧ (completeLevel ⟨0, [false, false]⟩).solved.getD 0 false = true
    ∧ (handleNextLevel ["a", "b"] (completeLevel ⟨0, [false, false]⟩)).index
        = ((0 : Nat) : Int) + 1
    ∧ (navRun ["a", "b"] ⟨0, [true, false]⟩ [NavEvent.next]).solved
        = (⟨0, [true, false]⟩ : CampaignState).solved := by
  have h := campaign_progression ["a", "b"] ⟨0, [false, false]⟩ 0 rfl
    (by decide) (by decide)
  exact ⟨rfl, h.2.1, h.2.2.1, h.2.2.2 ⟨0, [true, false]⟩ [NavEvent.next]⟩

/-- C10: selecting an image value that is not in the photo list sets the
campaign index to 0 (the first image) while preserving the solved flags. -/
theorem handleSelectImg_unknown (photos : List String) (value : String)
    (c : CampaignState) (h : value ∉ photos) :
    handleSelectImg photos value c = { index := 0, solved := c.solved } := by
  unfold handleSelectImg jsFindIndex
  have hnone : photos.findIdx? (fun p => p == value) = none := by
    rw [List.findIdx?_eq_none_iff]
    intro x hx
    exact beq_eq_false_iff_ne.mpr (fun hc => h (hc ▸ hx))
  rw [hnone]
  rw [CampaignState.mk.injEq]
  exact ⟨by decide, rfl⟩

/-- Witness for C10: selecting an absent image resets the index to 0 and
keeps the solved flags. -/
theorem handleSelectImg_unknown_witness :
    ("b" ∉ (["a"] : List String))
    ∧ handleSelectImg ["a"] "b" ⟨1, [true]⟩ = ⟨0, [true]⟩ :=
  ⟨by decide, handleSelectImg_unknown ["a"] "b" ⟨1, [true]⟩ (by decide)⟩
